import Mathlib

/-!
# AdmitGuard validation engine: shallow embedding and verification

This file embeds the AdmitGuard admission-form validation engine
(`src/lib/validation.ts`, `src/config/rules.ts`, and the submission gate of
`src/App.tsx`) into Lean 4 and proves properties of the embedded code.

Modelling choices:
* JavaScript runtime values that can appear in the form state are modelled by
  `Value` (strings, numbers, booleans, `null`, `undefined`).
* JavaScript numbers are modelled by `JNum`: a rational, `NaN`, or a signed
  infinity.  All relational comparisons involving `NaN` are `false`, exactly as
  in JavaScript.  Floating-point rounding is not modelled; the rationals that
  occur in the rules configuration are exactly representable.
* TypeScript optional fields (`x?: T`) are modelled by `Option`, with `none`
  playing the role of `undefined`.
* `new RegExp(p)` can throw a `SyntaxError` on a malformed pattern; fallible
  evaluation is therefore modelled by `Except String`.
* String `.length`, `.toLowerCase()` and `.includes()` agree with the
  JavaScript ones on the ASCII strings that the rules configuration uses.
-/

set_option maxRecDepth 4000

namespace AdmitGuard

/-- JavaScript runtime values stored in the form state (`Record<string, any>`).
Inputs produce strings, toggles produce booleans. -/
inductive Value where
  | undefined
  | vnull
  | vstr (s : String)
  | vnum (q : ℚ)
  | vbool (b : Bool)
deriving DecidableEq

/-- JavaScript strict equality `===` on `Value` (no `NaN` value occurs in the
model, so `===` is plain structural equality; `undefined !== null`). -/
def strictEq (a b : Value) : Bool := decide (a = b)

/-- JavaScript truthiness of a `Value`. -/
def truthy : Value → Bool
  | .undefined => false
  | .vnull => false
  | .vstr s => !(s = "")
  | .vnum q => !(q = 0)
  | .vbool b => b

/-- JavaScript `v || d` for values: JavaScript's falsy-defaulting OR. -/
def jsOr (o : Option Value) (d : Value) : Value :=
  match o with
  | some v => if truthy v then v else d
  | none => d

/-- JavaScript `q || d` for an optional number: JavaScript's falsy-defaulting OR
(note that an explicit `0` is falsy and is replaced by the default). -/
def jsOrQ (o : Option ℚ) (d : ℚ) : ℚ :=
  match o with
  | some q => if q = 0 then d else q
  | none => d

/-- A JavaScript number: `NaN`, `±Infinity`, or a finite value. -/
inductive JNum where
  | nan
  | posInf
  | negInf
  | fin (q : ℚ)
deriving DecidableEq

/-- JavaScript `<` on numbers: any comparison with `NaN` is `false`. -/
def jlt : JNum → JNum → Bool
  | .nan, _ => false
  | _, .nan => false
  | .negInf, .negInf => false
  | .negInf, _ => true
  | _, .negInf => false
  | .posInf, _ => false
  | .fin _, .posInf => true
  | .fin x, .fin y => decide (x < y)

/-- JavaScript `>` on numbers. -/
def jgt (a b : JNum) : Bool := jlt b a

/-- JavaScript `rule.min || -Infinity`: absent (or explicit `0`, which is falsy) becomes
`-Infinity`. -/
def jnOrNegInf (o : Option ℚ) : JNum :=
  match o with
  | some q => if q = 0 then .negInf else .fin q
  | none => .negInf

/-- JavaScript `rule.max || Infinity`. -/
def jnOrPosInf (o : Option ℚ) : JNum :=
  match o with
  | some q => if q = 0 then .posInf else .fin q
  | none => .posInf

/-- The characters treated as whitespace by JavaScript (`\s`, `trim`,
`Number(...)` coercion): tab..carriage-return, space, NBSP, the Unicode space
separators, and the BOM. -/
def jsSpaceChar (c : Char) : Bool :=
  let n := c.toNat
  (9 ≤ n && n ≤ 13) || n = 32 || n = 160 || n = 0x1680 ||
  (0x2000 ≤ n && n ≤ 0x200a) || n = 0x2028 || n = 0x2029 ||
  n = 0x202f || n = 0x205f || n = 0x3000 || n = 0xfeff

def isDigitC (c : Char) : Bool := decide ('0' ≤ c) && decide (c ≤ '9')

def digitValC (c : Char) : ℕ := c.toNat - '0'.toNat

/-- The numeric value of a hex/binary/octal digit, if it is one. -/
def radixDigitVal (radix : ℕ) (c : Char) : Option ℕ :=
  let v : ℕ :=
    if isDigitC c then digitValC c
    else if decide ('a' ≤ c) && decide (c ≤ 'f') then c.toNat - 'a'.toNat + 10
    else if decide ('A' ≤ c) && decide (c ≤ 'F') then c.toNat - 'A'.toNat + 10
    else 99
  if v < radix then some v else none

def dropLeadingSpaces : List Char → List Char
  | [] => []
  | c :: cs => if jsSpaceChar c then dropLeadingSpaces cs else c :: cs

/-- JavaScript `String.prototype.trim` on a character list. -/
def trimJs (cs : List Char) : List Char :=
  (dropLeadingSpaces ((dropLeadingSpaces cs.reverse).reverse))

/-- Take the leading run of decimal digits. -/
def spanDigits : List Char → (List Char × List Char)
  | [] => ([], [])
  | c :: cs =>
    if isDigitC c then
      let (ds, rest) := spanDigits cs
      (c :: ds, rest)
    else ([], c :: cs)

def digitsToNat (ds : List Char) : ℕ := ds.foldl (fun acc c => acc * 10 + digitValC c) 0

/-- Parse an unsigned decimal significand `digits [. digits]` or `. digits`,
returning its scaled integer value (the digits read as an integer), the
number of fraction digits, and the unconsumed input; the value denoted is
`scaled / 10 ^ fracLen`. -/
def parseDecSignificand (cs : List Char) : Option (ℕ × ℕ × List Char) :=
  let (ip, r1) := spanDigits cs
  match r1 with
  | '.' :: r2 =>
    let (fp, r3) := spanDigits r2
    if ip = [] && fp = [] then none
    else some (digitsToNat ip * 10 ^ fp.length + digitsToNat fp, fp.length, r3)
  | _ => if ip = [] then none else some (digitsToNat ip, 0, r1)

/-- Parse an optional exponent part `e[+-]digits`; fails (whole literal is
`NaN`) when an `e` is present but not followed by digits. -/
def parseExponent (cs : List Char) : Option (ℤ × List Char) :=
  match cs with
  | 'e' :: rest | 'E' :: rest =>
    let (sgn, rest2) : ℤ × List Char :=
      match rest with
      | '+' :: r => (1, r)
      | '-' :: r => (-1, r)
      | r => (1, r)
    let (ds, rest3) := spanDigits rest2
    if ds = [] then none else some (sgn * (digitsToNat ds : ℤ), rest3)
  | rest => some (0, rest)

/-- Parse a complete unsigned decimal literal (with optional exponent),
returning the value `scaled * 10 ^ (e - fracLen)` as a numerator/denominator
pair (built with `mkRat` by the caller). -/
def parseDecimal (cs : List Char) : Option (ℤ × ℕ) :=
  match parseDecSignificand cs with
  | none => none
  | some (scaled, fracLen, rest) =>
    match parseExponent rest with
    | none => none
    | some (e, rest2) =>
      if rest2 = [] then
        let shift : ℤ := e - fracLen
        if 0 ≤ shift then some ((scaled * 10 ^ shift.toNat : ℕ), 1)
        else some ((scaled : ℤ), 10 ^ (-shift).toNat)
      else none

/-- Parse a whole string of digits in the given radix (used for `0x`, `0b`,
`0o` literals); left-to-right accumulation. -/
def parseRadixNat (radix : ℕ) (cs : List Char) : Option ℕ :=
  cs.foldl
    (fun acc c =>
      match acc, radixDigitVal radix c with
      | some a, some v => some (a * radix + v)
      | _, _ => none)
    (some 0)

/-- JavaScript `Number(s)` for a string `s` (the `StringToNumber` coercion):
trimmed-empty is `0`, `Infinity` forms, `0x`/`0b`/`0o` radix literals, signed
decimal literals with optional fraction and exponent; anything else is `NaN`. -/
def jsStrToNum (s : String) : JNum :=
  let cs := trimJs s.toList
  match cs with
  | [] => .fin 0
  | '0' :: x :: rest =>
    if x = 'x' || x = 'X' then
      match parseRadixNat 16 rest with
      | some n => if rest = [] then .nan else .fin n
      | none => .nan
    else if x = 'b' || x = 'B' then
      match parseRadixNat 2 rest with
      | some n => if rest = [] then .nan else .fin n
      | none => .nan
    else if x = 'o' || x = 'O' then
      match parseRadixNat 8 rest with
      | some n => if rest = [] then .nan else .fin n
      | none => .nan
    else
      match parseDecimal cs with
      | some (num, den) => .fin (mkRat num den)
      | none => .nan
  | _ =>
    let (neg, cs2) : Bool × List Char :=
      match cs with
      | '+' :: r => (false, r)
      | '-' :: r => (true, r)
      | r => (false, r)
    if cs2 = [ 'I', 'n', 'f', 'i', 'n', 'i', 't', 'y' ] then
      if neg then .negInf else .posInf
    else
      match parseDecimal cs2 with
      | some (num, den) => .fin (mkRat (if neg then -num else num) den)
      | none => .nan

/-- JavaScript `Number(value)` (the `ToNumber` coercion) on a form value. -/
def toNumber : Value → JNum
  | .undefined => .nan
  | .vnull => .fin 0
  | .vbool b => .fin (if b then 1 else 0)
  | .vnum q => .fin q
  | .vstr s => jsStrToNum s

/-! ## A small regular-expression engine

The configuration compiles rule patterns with `new RegExp(rule.pattern)` and
tests values with `.test(value)`.  We embed the regular-expression dialect the
configuration actually uses (character classes, `\d`-style escapes, `{n}` /
`{n,}` / `{n,m}` counters, `*`, `+`, `?`, and `^` / `$` anchors) with
Brzozowski-derivative matching.  `compileRegex` returns `none` for a pattern
the engine cannot compile, modelling the `SyntaxError` thrown by
`new RegExp` on a malformed pattern such as an unterminated character class. -/

/-- One item of a character class: a single character or an inclusive range. -/
inductive CItem where
  | single (c : Char)
  | range (lo hi : Char)
deriving DecidableEq

/-- A character class `[...]` / `[^...]`, also used for `\d`, `\s`, `.` etc. -/
structure CClass where
  neg : Bool
  items : List CItem
deriving DecidableEq

def citemMatch (c : Char) : CItem → Bool
  | .single a => c = a
  | .range lo hi => decide (lo ≤ c) && decide (c ≤ hi)

def cclassMatch (cl : CClass) (c : Char) : Bool :=
  let base := cl.items.any (citemMatch c)
  if cl.neg then !base else base

/-- Regular expressions over characters. -/
inductive RE where
  | eps
  | cls (cl : CClass)
  | cat (r1 r2 : RE)
  | alt (r1 r2 : RE)
  | star (r : RE)
deriving DecidableEq

/-- The regular expression matching nothing at all. -/
def emptyRE : RE := .cls ⟨false, []⟩

def nullable : RE → Bool
  | .eps => true
  | .cls _ => false
  | .cat r1 r2 => nullable r1 && nullable r2
  | .alt r1 r2 => nullable r1 || nullable r2
  | .star _ => true

/-- Brzozowski derivative of a regular expression by a character. -/
def deriv (r : RE) (c : Char) : RE :=
  match r with
  | .eps => emptyRE
  | .cls cl => if cclassMatch cl c then .eps else emptyRE
  | .cat r1 r2 =>
    if nullable r1 then .alt (.cat (deriv r1 c) r2) (deriv r2 c)
    else .cat (deriv r1 c) r2
  | .alt r1 r2 => .alt (deriv r1 c) (deriv r2 c)
  | .star r1 => .cat (deriv r1 c) (.star r1)

/-- Does `r` match the whole character list? -/
def matchFull (r : RE) : List Char → Bool
  | [] => nullable r
  | c :: cs => matchFull (deriv r c) cs

/-- Does `r` match some prefix of the character list? -/
def matchesPref (r : RE) (cs : List Char) : Bool :=
  nullable r ||
    match cs with
    | [] => false
    | c :: rest => matchesPref (deriv r c) rest

/-- Does `r` match some substring of the character list (unanchored search)? -/
def searchRE (r : RE) (cs : List Char) : Bool :=
  matchesPref r cs ||
    match cs with
    | [] => false
    | _ :: rest => searchRE r rest

/-- Does `r` match some suffix of the character list completely
(`$`-anchored search)? -/
def searchEndRE (r : RE) (cs : List Char) : Bool :=
  matchFull r cs ||
    match cs with
    | [] => false
    | _ :: rest => searchEndRE r rest

/-- A compiled JavaScript regular expression: a body with optional `^` / `$`
anchors. -/
structure JSRegex where
  anchorStart : Bool
  body : RE
  anchorEnd : Bool
deriving DecidableEq

/-- JavaScript `RegExp.prototype.test`: anchored or unanchored search as dictated by the
anchors. -/
def regexTest (re : JSRegex) (s : String) : Bool :=
  let cs := s.toList
  match re.anchorStart, re.anchorEnd with
  | true, true => matchFull re.body cs
  | true, false => matchesPref re.body cs
  | false, true => searchEndRE re.body cs
  | false, false => searchRE re.body cs

/-- Items of the `\d` shorthand class. -/
def dItems : List CItem := [.range '0' '9']

/-- Items of the `\w` shorthand class. -/
def wItems : List CItem :=
  [.range 'a' 'z', .range 'A' 'Z', .range '0' '9', .single '_']

/-- Items of the `\s` shorthand class (JavaScript whitespace). -/
def sItems : List CItem :=
  [.range (Char.ofNat 9) (Char.ofNat 13), .single ' ', .single (Char.ofNat 160),
   .single (Char.ofNat 0x1680), .range (Char.ofNat 0x2000) (Char.ofNat 0x200a),
   .single (Char.ofNat 0x2028), .single (Char.ofNat 0x2029),
   .single (Char.ofNat 0x202f), .single (Char.ofNat 0x205f),
   .single (Char.ofNat 0x3000), .single (Char.ofNat 0xfeff)]

/-- The class denoted by `.` (anything but line terminators). -/
def dotClass : CClass :=
  ⟨true, [.single (Char.ofNat 10), .single (Char.ofNat 13),
          .single (Char.ofNat 0x2028), .single (Char.ofNat 0x2029)]⟩

/-- The class denoted by a top-level escape `\d`, `\D`, `\w`, `\W`, `\s`,
`\S`, or a literal escape of a non-alphanumeric character;
`none` for escapes outside the supported dialect. -/
def escClass (c : Char) : Option CClass :=
  if c = 'd' then some ⟨false, dItems⟩
  else if c = 'D' then some ⟨true, dItems⟩
  else if c = 'w' then some ⟨false, wItems⟩
  else if c = 'W' then some ⟨true, wItems⟩
  else if c = 's' then some ⟨false, sItems⟩
  else if c = 'S' then some ⟨true, sItems⟩
  else if c.isAlphanum then none
  else some ⟨false, [.single c]⟩

/-- Shorthand-class items usable inside `[...]`; `none` when `\c` inside a
class is a plain literal escape. -/
def escItemsInClass (c : Char) : Option (List CItem) :=
  if c = 'd' then some dItems
  else if c = 'w' then some wItems
  else if c = 's' then some sItems
  else none

mutual

/-- Parse the items of a character class up to the closing `]`;
`none` models the `SyntaxError` for an unterminated class or an
out-of-order range. -/
def parseClassItems (fuel : ℕ) (cs : List Char) : Option (List CItem × List Char) :=
  match fuel with
  | 0 => none
  | fuel + 1 =>
    match cs with
    | [] => none
    | ']' :: rest => some ([], rest)
    | '\\' :: c :: rest =>
      match escItemsInClass c with
      | some items =>
        match parseClassItems fuel rest with
        | some (tail, rest2) => some (items ++ tail, rest2)
        | none => none
      | none =>
        -- literal escape inside the class; it may begin a range
        parseClassRange fuel c rest
    | '\\' :: [] => none
    | c :: rest => parseClassRange fuel c rest

/-- Continue a class after a first literal character `c`, handling a
possible `c-d` range. -/
def parseClassRange (fuel : ℕ) (c : Char) (cs : List Char) : Option (List CItem × List Char) :=
  match fuel with
  | 0 => none
  | fuel + 1 =>
    match cs with
    | '-' :: ']' :: rest =>
      -- trailing '-' is a literal
      some ([.single c, .single '-'], rest)
    | '-' :: '\\' :: d :: rest =>
      match escItemsInClass d with
      | some _ => none
      | none =>
        if decide (c ≤ d) then
          match parseClassItems fuel rest with
          | some (tail, rest2) => some (.range c d :: tail, rest2)
          | none => none
        else none
    | '-' :: d :: rest =>
      if decide (c ≤ d) then
        match parseClassItems fuel rest with
        | some (tail, rest2) => some (.range c d :: tail, rest2)
        | none => none
      else none
    | rest =>
      match parseClassItems fuel rest with
      | some (tail, rest2) => some (.single c :: tail, rest2)
      | none => none

end

/-- The regex `r` concatenated `n` times. -/
def repeatRE (r : RE) : ℕ → RE
  | 0 => .eps
  | n + 1 => .cat r (repeatRE r n)

/-- At most `n` copies of `r`. -/
def upToRE (r : RE) : ℕ → RE
  | 0 => .eps
  | n + 1 => .cat (.alt r .eps) (upToRE r n)

/-- Parse a `{n}` / `{n,}` / `{n,m}` counted quantifier, returning the bounds
and the unconsumed input; `none` when the braces do not form a counter
(JavaScript then treats the `{` as a literal character). -/
def parseCounter (cs : List Char) : Option (ℕ × Option ℕ × List Char) :=
  let (ds, r1) := spanDigits cs
  if ds = [] then none
  else
    match r1 with
    | '}' :: rest => some (digitsToNat ds, some (digitsToNat ds), rest)
    | ',' :: '}' :: rest => some (digitsToNat ds, none, rest)
    | ',' :: r2 =>
      let (ds2, r3) := spanDigits r2
      if ds2 = [] then none
      else
        match r3 with
        | '}' :: rest => some (digitsToNat ds, some (digitsToNat ds2), rest)
        | _ => none
    | _ => none

/-- Attach a quantifier following an atom, when present.  A malformed `{...}`
is left in place (JavaScript treats the `{` as a literal); an out-of-order
counter `{n,m}` with `m < n` is a `SyntaxError`, modelled by `none`. -/
def applyQuant (a : RE) (cs : List Char) : Option (RE × List Char) :=
  match cs with
  | '*' :: rest => some (.star a, rest)
  | '+' :: rest => some (.cat a (.star a), rest)
  | '?' :: rest => some (.alt a .eps, rest)
  | '{' :: rest =>
    match parseCounter rest with
    | some (lo, some hi, rest2) =>
      if lo ≤ hi then some (.cat (repeatRE a lo) (upToRE a (hi - lo)), rest2)
      else none
    | some (lo, none, rest2) => some (.cat (repeatRE a lo) (.star a), rest2)
    | none => some (a, '{' :: rest)
  | _ => some (a, cs)

/-- Parse one atom of the pattern. -/
def parseAtom (fuel : ℕ) (cs : List Char) : Option (RE × List Char) :=
  match cs with
  | [] => none
  | '\\' :: c :: rest =>
    match escClass c with
    | some cl => some (.cls cl, rest)
    | none => none
  | '\\' :: [] => none
  | '[' :: '^' :: rest =>
    match parseClassItems fuel rest with
    | some (items, rest2) => some (.cls ⟨true, items⟩, rest2)
    | none => none
  | '[' :: rest =>
    match parseClassItems fuel rest with
    | some (items, rest2) => some (.cls ⟨false, items⟩, rest2)
    | none => none
  | '.' :: rest => some (.cls dotClass, rest)
  | '(' :: _ => none
  | ')' :: _ => none
  | '|' :: _ => none
  | '*' :: _ => none
  | '+' :: _ => none
  | '?' :: _ => none
  | c :: rest => some (.cls ⟨false, [.single c]⟩, rest)

/-- Parse a sequence of quantified atoms up to the end of the pattern,
recognising a final `$` anchor. -/
def parseSeq (fuel : ℕ) (cs : List Char) : Option (RE × Bool) :=
  match fuel with
  | 0 => none
  | fuel + 1 =>
    match cs with
    | [] => some (.eps, false)
    | '$' :: [] => some (.eps, true)
    | '$' :: _ => none
    | _ =>
      match parseAtom fuel cs with
      | none => none
      | some (a, rest) =>
        match applyQuant a rest with
        | none => none
        | some (a2, rest2) =>
          match parseSeq fuel rest2 with
          | none => none
          | some (tail, anch) => some (.cat a2 tail, anch)

/-- JavaScript `new RegExp(p)`: compile a pattern string; `none` models the
`SyntaxError` thrown on a malformed pattern. -/
def compileRegex (p : String) : Option JSRegex :=
  let cs := p.toList
  let (aS, cs1) : Bool × List Char :=
    match cs with
    | '^' :: rest => (true, rest)
    | rest => (false, rest)
  match parseSeq (cs1.length + 1) cs1 with
  | some (r, aE) => some ⟨aS, r, aE⟩
  | none => none

/-! ## Dates (for the `ageRange` rule)

`validateField` computes `differenceInYears(new Date(), new Date(value))`.
The current date is an implicit input of the source code; the embedding makes
it an explicit `today` parameter.  Date strings are parsed in the ISO
`YYYY-MM-DD` format the date input produces; an unparsable value behaves as
JavaScript's `Invalid Date`, whose age is `NaN`. -/

/-- A calendar date. -/
structure YMD where
  y : ℤ
  m : ℤ
  d : ℤ
deriving DecidableEq

def isLeapYear (y : ℤ) : Bool :=
  (y % 4 = 0 && !(y % 100 = 0)) || y % 400 = 0

def daysInMonth (y m : ℤ) : ℤ :=
  if m = 2 then (if isLeapYear y then 29 else 28)
  else if m = 4 || m = 6 || m = 9 || m = 11 then 30
  else 31

/-- Parse a strict ISO `YYYY-MM-DD` date string; `none` is `Invalid Date`. -/
def parseDateStr (s : String) : Option YMD :=
  match s.toList with
  | [y1, y2, y3, y4, '-', m1, m2, '-', d1, d2] =>
    if isDigitC y1 && isDigitC y2 && isDigitC y3 && isDigitC y4 &&
        isDigitC m1 && isDigitC m2 && isDigitC d1 && isDigitC d2 then
      let y : ℤ := digitsToNat [y1, y2, y3, y4]
      let m : ℤ := digitsToNat [m1, m2]
      let d : ℤ := digitsToNat [d1, d2]
      if 1 ≤ m && m ≤ 12 && 1 ≤ d && d ≤ daysInMonth y m then some ⟨y, m, d⟩
      else none
    else none
  | _ => none

/-- Civil date from days since the Unix epoch (Howard Hinnant's algorithm,
with floor division so that pre-1970 instants are also correct). -/
def civilFromDays (z0 : ℤ) : YMD :=
  let z := z0 + 719468
  let era := Int.fdiv z 146097
  let doe := z - era * 146097
  let yoe := Int.fdiv (doe - Int.fdiv doe 1460 + Int.fdiv doe 36524 - Int.fdiv doe 146096) 365
  let y := yoe + era * 400
  let doy := doe - (365 * yoe + Int.fdiv yoe 4 - Int.fdiv yoe 100)
  let mp := Int.fdiv (5 * doy + 2) 153
  let d := doy - Int.fdiv (153 * mp + 2) 5 + 1
  let m := mp + (if mp < 10 then 3 else -9)
  ⟨y + (if m ≤ 2 then 1 else 0), m, d⟩

/-- JavaScript `ToIntegerOrInfinity`-style truncation toward zero. -/
def jsTrunc (q : ℚ) : ℤ := if 0 ≤ q then ⌊q⌋ else -⌊-q⌋

/-- JavaScript `new Date(value)` at day granularity: ISO strings are parsed, numbers are
epoch milliseconds, booleans coerce to `0`/`1` milliseconds; `none` is
`Invalid Date`. -/
def dateFromValue : Value → Option YMD
  | .vstr s => parseDateStr s
  | .vnum q => some (civilFromDays (Int.fdiv (jsTrunc q) 86400000))
  | .vbool _ => some (civilFromDays 0)
  | .vnull => some (civilFromDays 0)
  | .undefined => none

/-- The date-fns `differenceInYears(today, birth)`: the number of full calendar years, or
`NaN` when the birth date is invalid. -/
def ageOf (today : YMD) : Option YMD → JNum
  | none => .nan
  | some b =>
    let notYet : Bool := today.m < b.m || (today.m = b.m && today.d < b.d)
    .fin ((today.y - b.y - (if notYet then 1 else 0) : ℤ) : ℚ)

/-! ## The rules data model (`src/config/rules.ts`) -/

/-- The discriminant of `ValidationRule.type`. -/
inductive RuleType where
  | required
  | minLength
  | noNumbers
  | emailFormat
  | unique
  | pattern
  | ageRange
  | range
  | minValue
  | notEquals
  | exactLength
  | conditional
deriving DecidableEq

/-- One entry of a `conditional` rule's `conditions` array.  The source field
named `in` is called `in_` here (`in` is reserved in Lean). -/
structure Cond where
  when : String
  is : Option Value := none
  in_ : Option (List Value) := none
  requires : Option String := none
  min : Option ℚ := none
  max : Option ℚ := none
  message : Option String := none
deriving DecidableEq

/-- The `ValidationRule` interface from `src/config/rules.ts`; optional fields are `Option`
with `none` as `undefined`. -/
structure ValidationRule where
  type : RuleType
  message : Option String := none
  value : Option Value := none
  pattern : Option String := none
  min : Option ℚ := none
  max : Option ℚ := none
  checkStorage : Option Bool := none
  blockSubmission : Option Bool := none
  bannerMessage : Option String := none
  conditions : Option (List Cond) := none
deriving DecidableEq

inductive Category where
  | strict
  | soft
deriving DecidableEq

/-- The `FieldConfig` interface from `src/config/rules.ts` (UI-only fields such as `label`,
`type`, `options` are carried but unused by the validation logic). -/
structure FieldConfig where
  id : String
  label : String := ""
  type : String := "text"
  category : Category
  options : Option (List String) := none
  subType : Option String := none
  validations : List ValidationRule
  allowException : Bool := false
  rationaleKeywords : Option (List String) := none
  rationaleMinLength : Option ℚ := none
deriving DecidableEq

structure SystemRules where
  maxExceptions : ℚ
  flagMessage : String
deriving DecidableEq

structure RulesConfig where
  fields : List FieldConfig
  systemRules : SystemRules

/-- A JavaScript `Record<string, any>` (form data, an audit entry's
`formData`), as an association list; a missing key reads as `undefined`. -/
def RecordV := List (String × Value)

/-- Property read `record[key]`. -/
def getV (r : RecordV) (k : String) : Value :=
  match List.find? (fun p => p.1 = k) r with
  | some p => p.2
  | none => .undefined

/-- The `ValidationResult` interface from `src/lib/validation.ts`. -/
structure ValidationResult where
  valid : Bool
  error : Option String
  isSoft : Bool
  blockSubmission : Option Bool := none
deriving DecidableEq

/-! ## `validateField` (`src/lib/validation.ts`)

The `for (const rule of field.validations)` loop with early `return`s is
embedded as a recursion over the rule list: `evalRule` is the body of one
`switch` dispatch, returning `some result` for a `return`, `none` for a
`break`, and `.error` when the rule evaluation throws (`new RegExp` on a
malformed pattern). -/

/-- Does a string contain a decimal digit (`/[0-9]/.test(value)`)? -/
def hasDigit (s : String) : Bool := s.toList.any isDigitC

/-- The hard-coded e-mail shape `/^[^\s@]+@[^\s@]+\.[^\s@]+$/`. -/
def emailRE : RE :=
  let nsa : CClass := ⟨true, sItems ++ [.single '@']⟩
  let plusNsa : RE := .cat (.cls nsa) (.star (.cls nsa))
  .cat plusNsa (.cat (.cls ⟨false, [.single '@']⟩)
    (.cat plusNsa (.cat (.cls ⟨false, [.single '.']⟩) plusNsa)))

/-- The test `/^[^\s@]+@[^\s@]+\.[^\s@]+$/.test(s)`. -/
def emailTest (s : String) : Bool := matchFull emailRE s.toList

/-- The failing result shared by most rule kinds. -/
def failRes (isSoft : Bool) (msg : Option String) : ValidationResult :=
  ⟨false, msg, isSoft, none⟩

/-- JavaScript `cond.message || rule.message`. -/
def msgOr (a b : Option String) : Option String :=
  match a with
  | some s => if s = "" then b else some s
  | none => b

/-- The body of the `case 'conditional'` loop over `rule.conditions`:
the first failing condition's result, or `none` when every condition passes
or does not apply. -/
def evalConds (rule : ValidationRule) (isSoft : Bool) (value : Value)
    (allData : RecordV) : List Cond → Option ValidationResult
  | [] => none
  | cond :: rest =>
    let whenValue := getV allData cond.when
    let applies :=
      (match cond.is with
       | some iv => strictEq whenValue iv
       | none => false) ||
      (match cond.in_ with
       | some l => l.any (strictEq whenValue)
       | none => false)
    if applies then
      -- `if (cond.requires) { ... }`
      let reqFail : Bool :=
        match cond.requires with
        | some rq =>
          if rq = "" then false
          else
            let reqValue := getV allData rq
            match cond.in_ with
            | some l => !(l.any (strictEq reqValue))
            | none => false
        | none => false
      if reqFail then some (failRes isSoft (msgOr cond.message rule.message))
      else
        let val := toNumber value
        if (match cond.min with
            | some m => jlt val (.fin m)
            | none => false) then
          some (failRes isSoft (msgOr cond.message rule.message))
        else if (match cond.max with
            | some m => jgt val (.fin m)
            | none => false) then
          some (failRes isSoft (msgOr cond.message rule.message))
        else evalConds rule isSoft value allData rest
    else evalConds rule isSoft value allData rest

/-- The constant `isSoft = field.category === 'soft'`. -/
def fieldIsSoft (field : FieldConfig) : Bool := field.category == .soft

/-- One `switch (rule.type)` dispatch of `validateField`:
`.ok (some r)` for an early `return r`, `.ok none` for a `break`
(the rule passes), `.error` when the evaluation throws. -/
def evalRule (field : FieldConfig) (rule : ValidationRule) (value : Value)
    (allData : RecordV) (auditLog : List RecordV) (today : YMD) :
    Except String (Option ValidationResult) :=
  match rule.type with
  | .required =>
    if value = .undefined || value = .vnull || value = .vstr "" || value = .vbool false then
      .ok (some (failRes (fieldIsSoft field) rule.message))
    else .ok none
  | .minLength =>
    match value with
    | .vstr s =>
      if jlt (.fin (s.length : ℚ)) (toNumber (jsOr rule.value (.vnum 0))) then
        .ok (some (failRes (fieldIsSoft field) rule.message))
      else .ok none
    | _ => .ok none
  | .noNumbers =>
    match value with
    | .vstr s => if hasDigit s then .ok (some (failRes (fieldIsSoft field) rule.message)) else .ok none
    | _ => .ok none
  | .emailFormat =>
    match value with
    | .vstr s => if !emailTest s then .ok (some (failRes (fieldIsSoft field) rule.message)) else .ok none
    | _ => .ok none
  | .unique =>
    if rule.checkStorage.getD false then
      match value with
      | .vstr _ =>
        if auditLog.any (fun entry => strictEq (getV entry field.id) value) then
          .ok (some (failRes (fieldIsSoft field) rule.message))
        else .ok none
      | _ => .ok none
    else .ok none
  | .pattern =>
    match value with
    | .vstr s =>
      match rule.pattern with
      | some p =>
        if p = "" then .ok none
        else
          match compileRegex p with
          | none => .error "SyntaxError: Invalid regular expression"
          | some re =>
            if !regexTest re s then .ok (some (failRes (fieldIsSoft field) rule.message))
            else .ok none
      | none => .ok none
    | _ => .ok none
  | .ageRange =>
    if truthy value then
      let age := ageOf today (dateFromValue value)
      if jlt age (.fin (jsOrQ rule.min 0)) || jgt age (.fin (jsOrQ rule.max 999)) then
        .ok (some (failRes (fieldIsSoft field) rule.message))
      else .ok none
    else .ok none
  | .range =>
    let numValue := toNumber value
    if jlt numValue (jnOrNegInf rule.min) || jgt numValue (jnOrPosInf rule.max) then
      .ok (some (failRes (fieldIsSoft field) rule.message))
    else .ok none
  | .minValue =>
    if jlt (toNumber value) (toNumber (jsOr rule.value (.vnum 0))) then
      .ok (some (failRes (fieldIsSoft field) rule.message))
    else .ok none
  | .notEquals =>
    if strictEq value (rule.value.getD .undefined) then
      .ok (some ⟨false, rule.message, fieldIsSoft field, rule.blockSubmission⟩)
    else .ok none
  | .exactLength =>
    match value with
    | .vstr s =>
      if !strictEq (.vnum (s.length : ℚ)) (rule.value.getD .undefined) then
        .ok (some (failRes (fieldIsSoft field) rule.message))
      else .ok none
    | _ => .ok none
  | .conditional =>
    match rule.conditions with
    | some conds => .ok (evalConds rule (fieldIsSoft field) value allData conds)
    | none => .ok none

/-- The rule loop of `validateField`. -/
def validateRules (field : FieldConfig) (value : Value) (allData : RecordV)
    (auditLog : List RecordV) (today : YMD) :
    List ValidationRule → Except String ValidationResult
  | [] => .ok ⟨true, none, fieldIsSoft field, none⟩
  | rule :: rest =>
    match evalRule field rule value allData auditLog today with
    | .error e => .error e
    | .ok (some res) => .ok res
    | .ok none => validateRules field value allData auditLog today rest

/-- The function `validateField` from `src/lib/validation.ts`, with the current date passed
explicitly. -/
def validateField (field : FieldConfig) (value : Value) (allData : RecordV)
    (auditLog : List RecordV) (today : YMD) : Except String ValidationResult :=
  validateRules field value allData auditLog today field.validations

/-! ## `checkRationale` (`src/lib/validation.ts`) -/

/-- Does the character list `needle` occur as a contiguous run at the start of
`hay`? -/
def runAtStart : List Char → List Char → Bool
  | [], _ => true
  | _ :: _, [] => false
  | a :: as, b :: bs => a = b && runAtStart as bs

/-- JavaScript `hay.includes(needle)`. -/
def strIncludesL (needle : List Char) : List Char → Bool
  | [] => needle.isEmpty
  | c :: rest => runAtStart needle (c :: rest) || strIncludesL needle rest

def strIncludes (hay needle : String) : Bool := strIncludesL needle.toList hay.toList

/-- ASCII lower-casing of a character (agrees with JavaScript
`toLowerCase()` on the ASCII strings the configuration uses). -/
def toLowerC (c : Char) : Char :=
  if 'A' ≤ c && c ≤ 'Z' then Char.ofNat (c.toNat + 32) else c

/-- JavaScript `s.toLowerCase()` (ASCII). -/
def strToLower (s : String) : String := String.mk (s.toList.map toLowerC)

/-- The result record of `checkRationale`. -/
structure RationaleResult where
  valid : Bool
  error : Option String
deriving DecidableEq

/-- The function `checkRationale` from `src/lib/validation.ts`. -/
def checkRationale (field : FieldConfig) (rationale : String) : RationaleResult :=
  let minLen := jsOrQ field.rationaleMinLength 30
  if rationale = "" || decide ((rationale.length : ℚ) < minLen) then
    ⟨false, some ("Rationale must be at least " ++ toString minLen ++ " characters.")⟩
  else
    match field.rationaleKeywords with
    | some kws =>
      if kws.length > 0 then
        let lowerRationale := strToLower rationale
        let hasKeyword := kws.any (fun kw => strIncludes lowerRationale (strToLower kw))
        if !hasKeyword then
          ⟨false, some ("Rationale must include one of the following keywords: " ++
            String.intercalate ", " kws)⟩
        else ⟨true, none⟩
      else ⟨true, none⟩
    | none => ⟨true, none⟩

/-! ## The submission gate (`src/App.tsx`)

`validationErrors` is rebuilt by an effect that runs `validateField` on every
schema field and keeps only the invalid results (`buildErrors`); `canSubmit`
combines a scan over that error map with the `missingRequired` scan over the
schema. -/

/-- The per-field exception state (`interface Exception` in `App.tsx`). -/
structure Exception where
  active : Bool
  rationale : String
deriving DecidableEq

/-- The lookup `state.exceptions[id]` (first binding wins, as in a JS object). -/
def lookupExc (exceptions : List (String × Exception)) (id : String) : Option Exception :=
  match List.find? (fun p => p.1 = id) exceptions with
  | some p => some p.2
  | none => none

/-- The count `Object.values(state.exceptions).filter(e => e.active).length`. -/
def activeExceptionsCount (exceptions : List (String × Exception)) : ℕ :=
  (exceptions.filter (fun p => p.2.active)).length

/-- The flag `isFlagged = activeExceptionsCount > rulesConfig.systemRules.maxExceptions`. -/
def isFlagged (sys : SystemRules) (exceptions : List (String × Exception)) : Bool :=
  decide ((activeExceptionsCount exceptions : ℚ) > sys.maxExceptions)

/-- The lookup `rulesConfig.fields.find(f => f.id === id)`. -/
def findField (fields : List FieldConfig) (id : String) : Option FieldConfig :=
  List.find? (fun f => f.id = id) fields

/-- The body of the `Object.entries(validationErrors).some(...)` callback in
`canSubmit`: does this error-map entry block submission? -/
def entryBlocks (fields : List FieldConfig) (exceptions : List (String × Exception))
    (id : String) (result : ValidationResult) : Bool :=
  match findField fields id with
  | none => false
  | some field =>
    if field.category == .strict && !result.valid then true
    else if field.category == .soft && !result.valid then
      match lookupExc exceptions id with
      | none => true
      | some exc =>
        if !exc.active then true
        else if !(checkRationale field exc.rationale).valid then true
        else result.blockSubmission.getD false
    else result.blockSubmission.getD false

/-- The real-time validation effect: run `validateField` over the schema in
order and keep the invalid results, keyed by field id. -/
def buildErrors (fields : List FieldConfig) (formData : RecordV)
    (auditLog : List RecordV) (today : YMD) :
    Except String (List (String × ValidationResult)) :=
  match fields with
  | [] => .ok []
  | f :: fs =>
    match validateField f (getV formData f.id) formData auditLog today with
    | .error e => .error e
    | .ok r =>
      match buildErrors fs formData auditLog today with
      | .error e => .error e
      | .ok rest => .ok (if r.valid then rest else (f.id, r) :: rest)

/-- The `missingRequired` scan of `canSubmit`: a field with a `required` rule
whose current value is `undefined`, `null`, or the empty string. -/
def missingRequiredB (fields : List FieldConfig) (formData : RecordV) : Bool :=
  fields.any (fun f =>
    (f.validations.any (fun v => v.type == .required)) &&
      (getV formData f.id == .undefined || getV formData f.id == .vnull ||
        getV formData f.id == .vstr ""))

/-- The gate `canSubmit` from `App.tsx`, over the error map produced by the validation
effect.  Propagates the exception of a throwing `validateField` call (in the
app such a throw would crash the render effect before `canSubmit` runs). -/
def canSubmit (fields : List FieldConfig) (formData : RecordV)
    (exceptions : List (String × Exception)) (auditLog : List RecordV)
    (today : YMD) : Except String Bool :=
  match buildErrors fields formData auditLog today with
  | .error e => .error e
  | .ok errs =>
    .ok (!(errs.any (fun p => entryBlocks fields exceptions p.1 p.2)) &&
      !missingRequiredB fields formData)

/-! ## The shipped configuration (`rulesConfig` in `src/config/rules.ts`) -/

/-- The canonical rationale keywords shared by the soft fields. -/
def softKeywords : List String :=
  ["approved by", "special case", "documentation pending", "waiver granted"]

def fullNameField : FieldConfig :=
  { id := "fullName", label := "Full Name", type := "text", category := .strict,
    validations :=
      [{ type := .required, message := some "Full name is required" },
       { type := .minLength, value := some (.vnum 2),
         message := some "Name must be at least 2 characters" },
       { type := .noNumbers, message := some "Name cannot contain numbers",
         pattern := some "^[^0-9]*$" }],
    allowException := false }

def emailField : FieldConfig :=
  { id := "email", label := "Email Address", type := "email", category := .strict,
    validations :=
      [{ type := .required, message := some "Email is required" },
       { type := .emailFormat,
         message := some "Enter a valid email address (e.g., name@company.com)" },
       { type := .unique, message := some "This email is already registered",
         checkStorage := some true }],
    allowException := false }

def phoneField : FieldConfig :=
  { id := "phone", label := "Phone Number", type := "tel", category := .strict,
    validations :=
      [{ type := .required, message := some "Phone number is required" },
       { type := .pattern, pattern := some "^[6-9]\\d{9}$",
         message := some "Enter 10-digit Indian mobile number starting with 6-9" }],
    allowException := false }

def dobField : FieldConfig :=
  { id := "dob", label := "Date of Birth", type := "date", category := .soft,
    validations :=
      [{ type := .required, message := some "Date of birth is required" },
       { type := .ageRange, min := some 18, max := some 35,
         message := some "Candidate must be 18-35 years old" }],
    allowException := true,
    rationaleKeywords := some softKeywords,
    rationaleMinLength := some 30 }

def qualificationField : FieldConfig :=
  { id := "qualification", label := "Highest Qualification", type := "select",
    category := .strict,
    options := some ["B.Tech", "B.E.", "B.Sc", "BCA", "M.Tech", "M.Sc", "MCA", "MBA"],
    validations := [{ type := .required, message := some "Please select a qualification" }],
    allowException := false }

def graduationYearField : FieldConfig :=
  { id := "graduationYear", label := "Graduation Year", type := "number",
    category := .soft,
    validations :=
      [{ type := .required, message := some "Graduation year is required" },
       { type := .range, min := some 2015, max := some 2025,
         message := some "Graduation year must be between 2015-2025" }],
    allowException := true,
    rationaleKeywords := some softKeywords,
    rationaleMinLength := some 30 }

def scoreValueField : FieldConfig :=
  { id := "scoreValue", label := "Percentage / CGPA", type := "number",
    category := .soft, subType := some "toggle",
    validations :=
      [{ type := .required, message := some "Score is required" },
       { type := .conditional,
         conditions := some
           [{ when := "scoreType", is := some (.vstr "percentage"), min := some 60,
              message := some "Percentage must be ≥ 60%" },
            -- the source writes `min: 6.0`; the rational value is exactly 6
            { when := "scoreType", is := some (.vstr "cgpa"), min := some 6,
              max := some 10,
              message := some "CGPA must be ≥ 6.0 on 10-point scale" }] }],
    allowException := true,
    rationaleKeywords := some softKeywords,
    rationaleMinLength := some 30 }

def screeningScoreField : FieldConfig :=
  { id := "screeningScore", label := "Screening Test Score", type := "number",
    category := .soft,
    validations :=
      [{ type := .required, message := some "Screening score is required" },
       { type := .range, min := some 0, max := some 100,
         message := some "Score must be 0-100" },
       { type := .minValue, value := some (.vnum 40),
         message := some "Minimum qualifying score is 40/100" }],
    allowException := true,
    rationaleKeywords := some softKeywords,
    rationaleMinLength := some 30 }

def interviewStatusField : FieldConfig :=
  { id := "interviewStatus", label := "Interview Status", type := "select",
    category := .strict,
    options := some ["Cleared", "Waitlisted", "Rejected"],
    validations :=
      [{ type := .required, message := some "Interview status is required" },
       { type := .notEquals, value := some (.vstr "Rejected"),
         blockSubmission := some true,
         bannerMessage := some "Rejected candidates cannot be enrolled" }],
    allowException := false }

def aadhaarField : FieldConfig :=
  { id := "aadhaar", label := "Aadhaar Number", type := "text", category := .strict,
    validations :=
      [{ type := .required, message := some "Aadhaar number is required" },
       { type := .exactLength, value := some (.vnum 12),
         message := some "Aadhaar must be exactly 12 digits" },
       { type := .pattern, pattern := some "^\\d{12}$",
         message := some "Aadhaar must contain only numbers" }],
    allowException := false }

def offerLetterSentField : FieldConfig :=
  { id := "offerLetterSent", label := "Offer Letter Sent", type := "toggle",
    category := .strict,
    validations :=
      [{ type := .conditional,
         conditions := some
           [{ when := "offerLetterSent", is := some (.vbool true),
              requires := some "interviewStatus",
              in_ := some [.vstr "Cleared", .vstr "Waitlisted"],
              message := some "Offer letter can only be sent if interview is Cleared or Waitlisted" }] }],
    allowException := false }

/-- The shipped `rulesConfig`. -/
def rulesConfig : RulesConfig :=
  { fields :=
      [fullNameField, emailField, phoneField, dobField, qualificationField,
       graduationYearField, scoreValueField, screeningScoreField,
       interviewStatusField, aadhaarField, offerLetterSentField],
    systemRules :=
      { maxExceptions := 2,
        flagMessage := "This candidate has more than 2 exceptions. Entry will be flagged for manager review." } }

/-- Decidable equality for `Except` results (component-wise). -/
instance {ε α : Type} [DecidableEq ε] [DecidableEq α] : DecidableEq (Except ε α) :=
  fun x y =>
    match x, y with
    | .error a, .error b =>
      if h : a = b then .isTrue (by rw [h]) else .isFalse (by simp [h])
    | .ok a, .ok b =>
      if h : a = b then .isTrue (by rw [h]) else .isFalse (by simp [h])
    | .error _, .ok _ => .isFalse (by simp)
    | .ok _, .error _ => .isFalse (by simp)

/-- A fixed current date used by the concrete evaluations. -/
def demoToday : YMD := ⟨2026, 10, 11⟩

/-- A concrete form state in which every field satisfies its rules except
`screeningScore`, which holds the boolean `false` (initial toggle state or a
cleared value) and therefore fails its `required` rule. -/
def demoData : RecordV :=
  [("scoreType", .vstr "percentage"), ("offerLetterSent", .vbool false),
   ("fullName", .vstr "John Doe"), ("email", .vstr "john@x.com"),
   ("phone", .vstr "9876543210"), ("dob", .vstr "2000-01-15"),
   ("qualification", .vstr "B.Tech"), ("graduationYear", .vstr "2020"),
   ("scoreValue", .vstr "75"), ("screeningScore", .vbool false),
   ("interviewStatus", .vstr "Cleared"), ("aadhaar", .vstr "123456789012")]

/-- An active exception for `screeningScore` whose rationale passes the
Exception Gate (45 characters, contains the keyword `approved by`). -/
def demoExc : List (String × Exception) :=
  [("screeningScore", ⟨true, "approved by dean since documentation pending"⟩)]

/-- The record `demoData` with the interview status set to `Rejected`. -/
def demoDataRejected : RecordV :=
  demoData.map (fun p =>
    if p.1 = "interviewStatus" then ("interviewStatus", Value.vstr "Rejected") else p)

/-- Exceptions for both soft-failing `screeningScore` and (futilely)
`interviewStatus`, each with a gate-passing rationale. -/
def demoExcRejected : List (String × Exception) :=
  demoExc ++ [("interviewStatus", ⟨true, "approved by dean since documentation pending"⟩)]

/-- A single-field schema used to instantiate the gate equivalence. -/
def w1Field : FieldConfig :=
  { id := "f1", category := .strict,
    validations := [{ type := .required, message := some "req" }] }

/-- A field whose `pattern` rule carries a malformed regular expression
(an unterminated character class). -/
def badPatternField : FieldConfig :=
  { id := "bad", category := .strict,
    validations := [{ type := .pattern, pattern := some "[", message := some "m" }] }

/-- A field carrying only an `emailFormat` rule. -/
def emailOnlyField : FieldConfig :=
  { id := "e", category := .strict,
    validations := [{ type := .emailFormat, message := some "bad email" }] }

/-- The invalid-result map of the validation effect, as a `filterMap`. -/
def errsOf (fields : List FieldConfig) (res : FieldConfig → ValidationResult) :
    List (String × ValidationResult) :=
  fields.filterMap (fun f => if (res f).valid then none else some (f.id, res f))

/-- Claim-side predicate: an active exception whose rationale passes the
Exception Gate is recorded for the field. -/
def exceptionShields (f : FieldConfig) (exceptions : List (String × Exception)) : Prop :=
  ∃ exc, lookupExc exceptions f.id = some exc ∧ exc.active = true ∧
    (checkRationale f exc.rationale).valid = true

/-- The `hasBlockingFailure` formula of the specification, over the per-field
results `res`. -/
def hasBlockingFailure (fields : List FieldConfig)
    (res : FieldConfig → ValidationResult)
    (exceptions : List (String × Exception)) : Prop :=
  ∃ f ∈ fields, (res f).valid = false ∧
    (f.category = .strict ∨ (res f).blockSubmission.getD false = true ∨
      (f.category = .soft ∧ ¬ exceptionShields f exceptions))

/-- The `missingRequired` formula of the specification. -/
def missingRequired (fields : List FieldConfig) (formData : RecordV) : Prop :=
  ∃ f ∈ fields, (∃ v ∈ f.validations, v.type = .required) ∧
    (getV formData f.id = .undefined ∨ getV formData f.id = .vnull ∨
      getV formData f.id = .vstr "")

/-- Does a rule's `pattern` string compile (vacuously true when the rule
carries no pattern, or an empty one that the falsy guard skips)? -/
def ruleCompiles (rule : ValidationRule) : Bool :=
  match rule.pattern with
  | some p => p = "" || (compileRegex p).isSome
  | none => true

/-- Do all of a field's rule patterns compile? -/
def patternsCompile (field : FieldConfig) : Bool :=
  field.validations.all ruleCompiles

/-! ## Helper lemmas -/

theorem runAtStart_iff (a b : List Char) : runAtStart a b = true ↔ a <+: b := by
  induction a generalizing b with
  | nil => simp [runAtStart]
  | cons x xs ih =>
    cases b with
    | nil => simp [runAtStart]
    | cons y ys =>
      rw [List.cons_prefix_cons]
      unfold runAtStart
      rw [Bool.and_eq_true, decide_eq_true_eq, ih]

theorem strIncludesL_iff (n h : List Char) : strIncludesL n h = true ↔ n <:+: h := by
  induction h with
  | nil => simp [strIncludesL, List.isEmpty_iff]
  | cons c t ih =>
    rw [List.infix_cons_iff]
    simp [strIncludesL, runAtStart_iff, ih]

/-- JavaScript `hay.includes(needle)` is substring containment. -/
theorem strIncludes_iff (hay needle : String) :
    strIncludes hay needle = true ↔ needle.toList <:+: hay.toList := by
  simp [strIncludes, strIncludesL_iff]

theorem strictEq_iff (a b : Value) : strictEq a b = true ↔ a = b := by
  simp [strictEq]

/-- With pairwise-distinct field ids, looking a member field's id back up in
the schema finds that very field. -/
theorem findField_mem_eq (fields : List FieldConfig) (f : FieldConfig)
    (hnodup : (fields.map FieldConfig.id).Nodup) (hmem : f ∈ fields) :
    findField fields f.id = some f := by
  induction fields with
  | nil => cases hmem
  | cons g fs ih =>
    rw [List.map_cons, List.nodup_cons] at hnodup
    rcases List.mem_cons.mp hmem with h | h
    · subst h
      unfold findField
      exact List.find?_cons_of_pos fs (decide_eq_true rfl)
    · have hne : ¬(g.id = f.id) := by
        intro he
        exact hnodup.1 (he ▸ List.mem_map_of_mem FieldConfig.id h)
      have hrec := ih hnodup.2 h
      unfold findField at hrec ⊢
      rw [List.find?_cons_of_neg]
      · exact hrec
      · simp [hne]

theorem buildErrors_eq (fields : List FieldConfig) (formData : RecordV)
    (auditLog : List RecordV) (today : YMD) (res : FieldConfig → ValidationResult)
    (hres : ∀ f ∈ fields,
      validateField f (getV formData f.id) formData auditLog today = .ok (res f)) :
    buildErrors fields formData auditLog today = .ok (errsOf fields res) := by
  induction fields with
  | nil => rfl
  | cons f fs ih =>
    have hf := hres f (List.mem_cons_self f fs)
    have hrest := ih (fun g hg => hres g (List.mem_cons_of_mem f hg))
    simp only [buildErrors, hf, hrest, errsOf, List.filterMap_cons]
    by_cases hv : (res f).valid <;> simp [hv]

theorem entryBlocks_iff (fields : List FieldConfig)
    (exceptions : List (String × Exception)) (f : FieldConfig)
    (result : ValidationResult) (hfind : findField fields f.id = some f)
    (hinv : result.valid = false) :
    entryBlocks fields exceptions f.id result = true ↔
      (f.category = .strict ∨ result.blockSubmission.getD false = true ∨
        (f.category = .soft ∧ ¬ exceptionShields f exceptions)) := by
  unfold entryBlocks
  rw [hfind]
  cases hc : f.category with
  | strict =>
    simp [hc, hinv]
  | soft =>
    simp only [hc, hinv]
    cases hl : lookupExc exceptions f.id with
    | none =>
      have hns : ¬ exceptionShields f exceptions := by
        rintro ⟨exc, hle, -, -⟩
        rw [hl] at hle
        cases hle
      simp [hns]
    | some exc =>
      by_cases ha : exc.active = true
      · by_cases hr : (checkRationale f exc.rationale).valid = true
        · have hs : exceptionShields f exceptions := ⟨exc, hl, ha, hr⟩
          simp [ha, hr, hs]
        · have hns : ¬ exceptionShields f exceptions := by
            rintro ⟨exc', hle, ha', hr'⟩
            rw [hl] at hle
            cases hle
            exact hr hr'
          simp [ha, Bool.not_eq_true] at hr
          simp [ha, hr, hns]
      · have hns : ¬ exceptionShields f exceptions := by
          rintro ⟨exc', hle, ha', -⟩
          rw [hl] at hle
          cases hle
          exact ha ha'
        simp [Bool.not_eq_true] at ha
        simp [ha, hns]

theorem missingRequiredB_iff (fields : List FieldConfig) (formData : RecordV) :
    missingRequiredB fields formData = true ↔ missingRequired fields formData := by
  unfold missingRequiredB missingRequired
  simp only [List.any_eq_true, Bool.and_eq_true, Bool.or_eq_true, beq_iff_eq,
    or_assoc]

/-- A single rule evaluation cannot throw unless its pattern fails to
compile. -/
theorem evalRule_ok_of_compiles (field : FieldConfig) (rule : ValidationRule)
    (value : Value) (allData : RecordV) (auditLog : List RecordV) (today : YMD)
    (h : ruleCompiles rule = true) :
    ∃ o, evalRule field rule value allData auditLog today = .ok o := by
  simp only [evalRule]
  split
  case h_6 =>
    -- the `pattern` case, the only one that can throw
    cases value
    case vstr s =>
      cases hp : rule.pattern with
      | none => exact ⟨_, rfl⟩
      | some p =>
        unfold ruleCompiles at h
        rw [hp] at h
        by_cases hpe : p = ""
        · simp [hpe]
        · have hc : (compileRegex p).isSome = true := by
            simp only [Bool.or_eq_true, decide_eq_true_eq] at h
            tauto
          rcases Option.isSome_iff_exists.mp hc with ⟨re, hre⟩
          simp only [hpe, if_false, hre]
          split <;> exact ⟨_, rfl⟩
    all_goals exact ⟨_, rfl⟩
  all_goals repeat' (first | exact ⟨_, rfl⟩ | split)

/-- Every early `return` of `validateField`'s rule loop is an invalid
verdict. -/
theorem evalConds_some_invalid (rule : ValidationRule) (isSoft : Bool)
    (value : Value) (allData : RecordV) (conds : List Cond)
    (res : ValidationResult)
    (h : evalConds rule isSoft value allData conds = some res) :
    res.valid = false := by
  induction conds with
  | nil => cases h
  | cons cond rest ih =>
    simp only [evalConds] at h
    split at h
    · split at h
      · cases h
        rfl
      · split at h
        · cases h
          rfl
        · split at h
          · cases h
            rfl
          · exact ih h
    · exact ih h

theorem evalRule_some_invalid (field : FieldConfig) (rule : ValidationRule)
    (value : Value) (allData : RecordV) (auditLog : List RecordV) (today : YMD)
    (res : ValidationResult)
    (h : evalRule field rule value allData auditLog today = .ok (some res)) :
    res.valid = false := by
  simp only [evalRule] at h
  split at h
  all_goals repeat' split at h
  all_goals
    first
      | exact evalConds_some_invalid _ _ _ _ _ _ h
      | (injection h with h'
         exact evalConds_some_invalid _ _ _ _ _ _ h')
      | (cases h
         rfl)
      | simp at h

/-- Rules that pass are skipped: the loop over `rs1 ++ rs2` behaves as the
loop over `rs2` when every rule of `rs1` passes. -/
theorem validateRules_append_pass (field : FieldConfig) (value : Value)
    (allData : RecordV) (auditLog : List RecordV) (today : YMD)
    (rs1 rs2 : List ValidationRule)
    (h : ∀ r ∈ rs1, evalRule field r value allData auditLog today = .ok none) :
    validateRules field value allData auditLog today (rs1 ++ rs2) =
      validateRules field value allData auditLog today rs2 := by
  induction rs1 with
  | nil => rfl
  | cons r rs ih =>
    have hr := h r (List.mem_cons_self r rs)
    rw [List.cons_append, validateRules, hr]
    exact ih (fun r' hmem => h r' (List.mem_cons_of_mem r hmem))

theorem validateRules_ok_of_compiles (field : FieldConfig) (value : Value)
    (allData : RecordV) (auditLog : List RecordV) (today : YMD)
    (rules : List ValidationRule)
    (h : ∀ r ∈ rules, ruleCompiles r = true) :
    ∃ r, validateRules field value allData auditLog today rules = .ok r := by
  induction rules with
  | nil => exact ⟨_, rfl⟩
  | cons rule rest ih =>
    rcases evalRule_ok_of_compiles field rule value allData auditLog today
      (h rule (List.mem_cons_self _ _)) with ⟨o, ho⟩
    rcases ih (fun r hr => h r (List.mem_cons_of_mem _ hr)) with ⟨res, hres⟩
    cases o with
    | some r0 => exact ⟨r0, by rw [validateRules, ho]⟩
    | none => exact ⟨res, by rw [validateRules, ho]; exact hres⟩

/-- The function `validateField` returns a result (does not throw) whenever all the
field's rule patterns compile. -/
theorem validateField_ok_of_compiles (field : FieldConfig)
    (h : patternsCompile field = true) (value : Value) (allData : RecordV)
    (auditLog : List RecordV) (today : YMD) :
    ∃ r, validateField field value allData auditLog today = .ok r := by
  unfold validateField
  refine validateRules_ok_of_compiles field value allData auditLog today _ ?_
  rw [patternsCompile, List.all_eq_true] at h
  exact h

/-- A returned result carrying a truthy `blockSubmission` is invalid. -/
theorem validateRules_block_invalid (field : FieldConfig) (value : Value)
    (allData : RecordV) (auditLog : List RecordV) (today : YMD)
    (rules : List ValidationRule) (r : ValidationResult)
    (hok : validateRules field value allData auditLog today rules = .ok r)
    (hb : r.blockSubmission.getD false = true) : r.valid = false := by
  induction rules with
  | nil =>
    simp only [validateRules] at hok
    cases hok
    simp at hb
  | cons rule rest ih =>
    simp only [validateRules] at hok
    split at hok
    · cases hok
    · next res heq =>
      cases hok
      exact evalRule_some_invalid _ _ _ _ _ _ _ heq
    · exact ih hok

theorem validateField_block_invalid (field : FieldConfig) (value : Value)
    (allData : RecordV) (auditLog : List RecordV) (today : YMD)
    (r : ValidationResult)
    (hok : validateField field value allData auditLog today = .ok r)
    (hb : r.blockSubmission.getD false = true) : r.valid = false :=
  validateRules_block_invalid field value allData auditLog today
    field.validations r hok hb

theorem errsOf_any_iff (fields : List FieldConfig)
    (res : FieldConfig → ValidationResult)
    (p : String × ValidationResult → Bool) :
    (errsOf fields res).any p = true ↔
      ∃ f ∈ fields, (res f).valid = false ∧ p (f.id, res f) = true := by
  rw [errsOf, List.any_eq_true]
  constructor
  · rintro ⟨x, hx, hpx⟩
    rcases List.mem_filterMap.mp hx with ⟨f, hf, hfx⟩
    by_cases hv : (res f).valid
    · simp [hv] at hfx
    · rw [if_neg hv] at hfx
      injection hfx with hfx
      exact ⟨f, hf, by simpa using hv, hfx ▸ hpx⟩
  · rintro ⟨f, hf, hv, hp⟩
    exact ⟨(f.id, res f), List.mem_filterMap.mpr ⟨f, hf, by simp [hv]⟩, hp⟩

/-- Claim **C1.** For every schema, per-field validation-result map (the results the
validation effect computes), and exception-state map, the submission gate
returns `canSubmit = !hasBlockingFailure && !missingRequired`, where
`hasBlockingFailure` holds iff some field's result is invalid and (the field
is `strict`, or the result carries `blockSubmission`, or the field is `soft`
and no active exception with a gate-passing rationale covers it), and
`missingRequired` holds iff some field with a `required` rule currently holds
`undefined`, `null`, or the empty string. -/
theorem canSubmit_matches_spec_gate
    (fields : List FieldConfig) (formData : RecordV)
    (exceptions : List (String × Exception)) (auditLog : List RecordV)
    (today : YMD) (res : FieldConfig → ValidationResult)
    (hnodup : (fields.map FieldConfig.id).Nodup)
    (hres : ∀ f ∈ fields,
      validateField f (getV formData f.id) formData auditLog today = .ok (res f)) :
    ∃ b, canSubmit fields formData exceptions auditLog today = .ok b ∧
      (b = true ↔
        (¬ hasBlockingFailure fields res exceptions ∧
          ¬ missingRequired fields formData)) := by
  have hb := buildErrors_eq fields formData auditLog today res hres
  refine ⟨!(errsOf fields res).any (fun p => entryBlocks fields exceptions p.1 p.2) &&
    !missingRequiredB fields formData, ?_, ?_⟩
  · unfold canSubmit
    rw [hb]
  · have hhs : ((errsOf fields res).any
        (fun p => entryBlocks fields exceptions p.1 p.2) = true)
        ↔ hasBlockingFailure fields res exceptions := by
      rw [errsOf_any_iff]
      unfold hasBlockingFailure
      constructor
      · rintro ⟨f, hf, hv, hp⟩
        exact ⟨f, hf, hv, (entryBlocks_iff fields exceptions f (res f)
          (findField_mem_eq fields f hnodup hf) hv).mp hp⟩
      · rintro ⟨f, hf, hv, hd⟩
        exact ⟨f, hf, hv, (entryBlocks_iff fields exceptions f (res f)
          (findField_mem_eq fields f hnodup hf) hv).mpr hd⟩
    have h1 : ((errsOf fields res).any
        (fun p => entryBlocks fields exceptions p.1 p.2) = false)
        ↔ ¬ hasBlockingFailure fields res exceptions := by
      rw [Bool.eq_false_iff]
      exact not_congr hhs
    have h2 : (missingRequiredB fields formData = false)
        ↔ ¬ missingRequired fields formData := by
      rw [Bool.eq_false_iff]
      exact not_congr (missingRequiredB_iff fields formData)
    rw [Bool.and_eq_true, Bool.not_eq_true', Bool.not_eq_true']
    exact and_congr h1 h2

/-- Witness for C1 at a concrete one-field schema and empty form state. -/
theorem canSubmit_matches_spec_gate_witness :
    ∃ b, canSubmit [w1Field] [] [] [] demoToday = .ok b ∧
      (b = true ↔
        (¬ hasBlockingFailure [w1Field] (fun _ => failRes false (some "req")) [] ∧
          ¬ missingRequired [w1Field] [])) :=
  canSubmit_matches_spec_gate [w1Field] [] [] [] demoToday
    (fun _ => failRes false (some "req"))
    (by decide)
    (by
      intro f hf
      rcases List.mem_singleton.mp hf with rfl
      rfl)

/-- Claim **C2.** `validateField` applies the field's rules in schema list order and
returns on the first failing rule with that rule's verdict, never evaluating
later rules; if every rule passes it returns `valid = true`, `error = null`.
For a field with rules `[required, minLength]`, the empty string yields the
`required` message (the `minLength` rule, whatever its content, is never
consulted: the conclusion does not depend on it). -/
theorem validateField_first_failing_rule :
    (∀ (field : FieldConfig) (value : Value) (allData : RecordV)
        (auditLog : List RecordV) (today : YMD)
        (rs1 rs2 : List ValidationRule) (rule : ValidationRule)
        (res : ValidationResult),
      field.validations = rs1 ++ rule :: rs2 →
      (∀ r ∈ rs1, evalRule field r value allData auditLog today = .ok none) →
      evalRule field rule value allData auditLog today = .ok (some res) →
      validateField field value allData auditLog today = .ok res) ∧
    (∀ (field : FieldConfig) (value : Value) (allData : RecordV)
        (auditLog : List RecordV) (today : YMD),
      (∀ r ∈ field.validations,
        evalRule field r value allData auditLog today = .ok none) →
      validateField field value allData auditLog today =
        .ok ⟨true, none, fieldIsSoft field, none⟩) ∧
    (∀ (cat : Category) (reqMsg minMsg : Option String) (n : Option Value)
        (allData : RecordV) (auditLog : List RecordV) (today : YMD),
      validateField
        { id := "f", category := cat,
          validations := [{ type := .required, message := reqMsg },
                          { type := .minLength, value := n, message := minMsg }] }
        (.vstr "") allData auditLog today =
        .ok ⟨false, reqMsg, cat == .soft, none⟩) := by
  refine ⟨?_, ?_, ?_⟩
  · intro field value allData auditLog today rs1 rs2 rule res hval hpass hfail
    unfold validateField
    rw [hval, validateRules_append_pass _ _ _ _ _ _ _ hpass, validateRules, hfail]
  · intro field value allData auditLog today hpass
    unfold validateField
    have hap := validateRules_append_pass field value allData auditLog today
      field.validations [] hpass
    rw [List.append_nil] at hap
    rw [hap]
    rfl
  · intro cat reqMsg minMsg n allData auditLog today
    rfl

/-- Witness for C2: `fullName` on `"J0hn"` passes `required` and `minLength`
and fails at the third rule, `noNumbers`, with that rule's message. -/
theorem validateField_first_failing_rule_witness :
    validateField fullNameField (.vstr "J0hn") [] [] demoToday =
      .ok ⟨false, some "Name cannot contain numbers", false, none⟩ :=
  validateField_first_failing_rule.1 fullNameField (.vstr "J0hn") [] [] demoToday
    [{ type := .required, message := some "Full name is required" },
     { type := .minLength, value := some (.vnum 2),
       message := some "Name must be at least 2 characters" }]
    []
    { type := .noNumbers, message := some "Name cannot contain numbers",
      pattern := some "^[^0-9]*$" }
    _ rfl
    (by intro r hr; fin_cases hr <;> rfl)
    rfl

/-- All shipped field patterns compile. -/
theorem shipped_patterns_compile : ∀ g ∈ rulesConfig.fields, patternsCompile g = true := by
  decide

/-- Claim **C3.** A failing rule that carries `blockSubmission` forces
`canSubmit = false` regardless of the exception state, overriding the field's
category; in the shipped schema, `interviewStatus = "Rejected"` always yields
`canSubmit = false`, even with an active, gate-passing exception recorded for
that field. -/
theorem blockSubmission_overrides :
    (∀ (fields : List FieldConfig) (formData : RecordV)
        (exceptions : List (String × Exception)) (auditLog : List RecordV)
        (today : YMD) (f : FieldConfig) (r : ValidationResult),
      (fields.map FieldConfig.id).Nodup → f ∈ fields →
      (∀ g ∈ fields, patternsCompile g = true) →
      validateField f (getV formData f.id) formData auditLog today = .ok r →
      r.blockSubmission.getD false = true →
      canSubmit fields formData exceptions auditLog today = .ok false) ∧
    (∀ (formData : RecordV) (exceptions : List (String × Exception))
        (auditLog : List RecordV) (today : YMD),
      getV formData "interviewStatus" = .vstr "Rejected" →
      canSubmit rulesConfig.fields formData exceptions auditLog today = .ok false) := by
  have part1 : ∀ (fields : List FieldConfig) (formData : RecordV)
      (exceptions : List (String × Exception)) (auditLog : List RecordV)
      (today : YMD) (f : FieldConfig) (r : ValidationResult),
      (fields.map FieldConfig.id).Nodup → f ∈ fields →
      (∀ g ∈ fields, patternsCompile g = true) →
      validateField f (getV formData f.id) formData auditLog today = .ok r →
      r.blockSubmission.getD false = true →
      canSubmit fields formData exceptions auditLog today = .ok false := by
    intro fields formData exceptions auditLog today f r hnodup hmem hcompiles hr hbk
    have hall : ∀ g, g ∈ fields →
        ∃ rg, validateField g (getV formData g.id) formData auditLog today = .ok rg :=
      fun g hg => validateField_ok_of_compiles g (hcompiles g hg) _ _ _ _
    choose resFn hresFn using hall
    set res : FieldConfig → ValidationResult :=
      fun g => if hg : g ∈ fields then resFn g hg else ⟨true, none, false, none⟩ with hresdef
    have hres : ∀ g ∈ fields,
        validateField g (getV formData g.id) formData auditLog today = .ok (res g) := by
      intro g hg
      rw [hresdef]
      simp only [hg, dif_pos]
      exact hresFn g hg
    have hfres : res f = r := by
      have h1 := hres f hmem
      rw [hr] at h1
      injection h1 with h1
      exact h1.symm
    have hinv : r.valid = false :=
      validateField_block_invalid f _ formData auditLog today r hr hbk
    have hbuild := buildErrors_eq fields formData auditLog today res hres
    unfold canSubmit
    rw [hbuild]
    suffices hany : (errsOf fields res).any
        (fun p => entryBlocks fields exceptions p.1 p.2) = true by
      simp only [hany]
      rfl
    rw [errsOf_any_iff]
    refine ⟨f, hmem, ?_, ?_⟩
    · rw [hfres]
      exact hinv
    · have hfind := findField_mem_eq fields f hnodup hmem
      rw [hfres]
      exact (entryBlocks_iff fields exceptions f r hfind hinv).mpr
        (Or.inr (Or.inl hbk))
  refine ⟨part1, ?_⟩
  intro formData exceptions auditLog today hval
  have hval' : getV formData interviewStatusField.id = Value.vstr "Rejected" := hval
  have hvf : validateField interviewStatusField
      (getV formData interviewStatusField.id) formData auditLog today =
      .ok ⟨false, none, false, some true⟩ := by
    rw [hval']
    rfl
  exact part1 rulesConfig.fields formData exceptions auditLog today
    interviewStatusField ⟨false, none, false, some true⟩
    (by decide)
    (by simp [rulesConfig])
    shipped_patterns_compile
    hvf
    rfl

/-- Witness for C3: the demo record with `interviewStatus = "Rejected"` and an
active, gate-passing exception recorded for that field still cannot submit. -/
theorem blockSubmission_overrides_witness :
    getV demoDataRejected "interviewStatus" = .vstr "Rejected" ∧
    canSubmit rulesConfig.fields demoDataRejected demoExcRejected [] demoToday =
      .ok false :=
  ⟨rfl, blockSubmission_overrides.2 demoDataRejected demoExcRejected [] demoToday rfl⟩

theorem jlt_nan_right (x : JNum) : jlt x .nan = false := by
  cases x <;> rfl

theorem jlt_nan_left (x : JNum) : jlt .nan x = false := by
  cases x <;> rfl

/-- The gate `checkRationale` rejects exactly when the rationale is empty, shorter than
the (falsy-defaulted) minimum, or misses every keyword case-insensitively. -/
theorem checkRationale_valid_iff (field : FieldConfig) (rationale : String) :
    (checkRationale field rationale).valid = false ↔
      (rationale = "" ∨
        (rationale.length : ℚ) < jsOrQ field.rationaleMinLength 30 ∨
        (∃ kws, field.rationaleKeywords = some kws ∧ kws ≠ [] ∧
          ∀ kw ∈ kws, ¬ ((strToLower kw).toList <:+: (strToLower rationale).toList))) := by
  simp only [checkRationale]
  split
  next hcond =>
    simp only [Bool.or_eq_true, decide_eq_true_eq] at hcond
    constructor
    · intro _
      rcases hcond with h | h
      · exact Or.inl h
      · exact Or.inr (Or.inl h)
    · intro _
      rfl
  next hcond =>
    simp only [Bool.or_eq_true, decide_eq_true_eq, not_or] at hcond
    obtain ⟨hne, hlen⟩ := hcond
    cases hkw : field.rationaleKeywords with
    | none =>
      simp only [hkw]
      constructor
      · intro h
        simp at h
      · rintro (h | h | ⟨kws, hk, -, -⟩)
        · exact absurd h hne
        · exact absurd h hlen
        · cases hk
    | some kws =>
      simp only [hkw]
      by_cases hl : kws.length > 0
      · rw [if_pos hl]
        by_cases hhk : (kws.any fun kw => strIncludes (strToLower rationale) (strToLower kw)) = true
        · simp only [hhk, Bool.not_true, Bool.false_eq_true, if_false]
          constructor
          · intro h
            simp at h
          · rintro (h | h | ⟨kws', hk, -, hall⟩)
            · exact absurd h hne
            · exact absurd h hlen
            · injection hk with hk
              subst hk
              rcases List.any_eq_true.mp hhk with ⟨kw, hkwmem, hinc⟩
              exact absurd ((strIncludes_iff _ _).mp hinc) (hall kw hkwmem)
        · have hhk' : (kws.any fun kw => strIncludes (strToLower rationale) (strToLower kw)) = false :=
            Bool.eq_false_iff.mpr hhk
          simp only [hhk', Bool.not_false, if_true]
          constructor
          · intro _
            refine Or.inr (Or.inr ⟨kws, rfl, List.length_pos.mp hl, ?_⟩)
            intro kw hkwmem hinfix
            have hin : strIncludes (strToLower rationale) (strToLower kw) = true :=
              (strIncludes_iff _ _).mpr hinfix
            have hany : (kws.any fun kw => strIncludes (strToLower rationale) (strToLower kw)) = true :=
              List.any_eq_true.mpr ⟨kw, hkwmem, hin⟩
            rw [hhk'] at hany
            cases hany
          · intro _
            trivial
      · rw [if_neg hl]
        constructor
        · intro h
          simp at h
        · rintro (h | h | ⟨kws', hk, hne', -⟩)
          · exact absurd h hne
          · exact absurd h hlen
          · injection hk with hk
            subst hk
            have h0 : kws = [] := List.length_eq_zero.mp (by omega)
            exact absurd h0 hne'

/-- A passing `checkRationale` carries a `null` error. -/
theorem checkRationale_valid_error (field : FieldConfig) (rationale : String) :
    (checkRationale field rationale).valid = true →
      (checkRationale field rationale).error = none := by
  simp only [checkRationale]
  repeat' split
  all_goals intro h
  all_goals first
    | rfl
    | simp at h

/-- A `conditional` rule whose conditions carry no `requires` clause passes on
a value that coerces to `NaN`. -/
theorem evalConds_nan_pass (rule : ValidationRule) (isSoft : Bool) (value : Value)
    (allData : RecordV) (conds : List Cond)
    (hnum : toNumber value = .nan)
    (hreq : ∀ c ∈ conds, c.requires = none) :
    evalConds rule isSoft value allData conds = none := by
  induction conds with
  | nil => rfl
  | cons cond rest ih =>
    have hr := hreq cond (List.mem_cons_self _ _)
    have htail := ih (fun c hc => hreq c (List.mem_cons_of_mem _ hc))
    simp only [evalConds, hr, hnum, jlt, jgt, jlt_nan_right]
    split
    · cases hmin : cond.min <;> cases hmax : cond.max <;> simp [htail]
    · exact htail

/-- Claim **C4.** `checkRationale` fails iff the rationale is empty, shorter than the
field's minimum (default 30, via the falsy-defaulting `|| 30`), or the field
declares a non-empty keyword list and the rationale, lower-cased, contains
none of the (lower-cased) keywords as a substring; otherwise it returns
`valid = true` with `error = null`.  Concretely (shipped `dob` field):
29 characters is invalid, 30 keyword-free characters is invalid, and a
35-character rationale containing `"approved by"` is valid. -/
theorem checkRationale_spec :
    (∀ (field : FieldConfig) (rationale : String),
      ((checkRationale field rationale).valid = false ↔
        (rationale = "" ∨
          (rationale.length : ℚ) < jsOrQ field.rationaleMinLength 30 ∨
          (∃ kws, field.rationaleKeywords = some kws ∧ kws ≠ [] ∧
            ∀ kw ∈ kws, ¬ ((strToLower kw).toList <:+: (strToLower rationale).toList)))) ∧
      ((checkRationale field rationale).valid = true →
        (checkRationale field rationale).error = none)) ∧
    (checkRationale dobField (String.mk (List.replicate 29 'a'))).valid = false ∧
    (checkRationale dobField (String.mk (List.replicate 30 'a'))).valid = false ∧
    ("x approved by dean special admit ok".length = 35 ∧
      checkRationale dobField "x approved by dean special admit ok" =
        ⟨true, none⟩) :=
  ⟨fun field rationale =>
    ⟨checkRationale_valid_iff field rationale,
     checkRationale_valid_error field rationale⟩,
   by decide, by decide, by decide, by decide⟩

/-- Witness for C4 at a concrete field and rationale: a 29-character rationale
fails the gate via the length disjunct. -/
theorem checkRationale_spec_witness :
    (checkRationale dobField (String.mk (List.replicate 29 'a'))).valid = false :=
  (checkRationale_spec.1 dobField (String.mk (List.replicate 29 'a'))).1.mpr
    (Or.inr (Or.inl (by decide)))

/-- Claim **C5.** `isFlagged` is true iff the number of active exceptions is
strictly greater than `systemRules.maxExceptions`; with the shipped
`maxExceptions = 2`, exactly 2 active exceptions do not flag and 3 do. -/
theorem isFlagged_threshold :
    (∀ (sys : SystemRules) (exceptions : List (String × Exception)),
      isFlagged sys exceptions = true ↔
        (activeExceptionsCount exceptions : ℚ) > sys.maxExceptions) ∧
    rulesConfig.systemRules.maxExceptions = 2 ∧
    (∀ exceptions : List (String × Exception),
      activeExceptionsCount exceptions = 2 →
      isFlagged rulesConfig.systemRules exceptions = false) ∧
    (∀ exceptions : List (String × Exception),
      activeExceptionsCount exceptions = 3 →
      isFlagged rulesConfig.systemRules exceptions = true) := by
  refine ⟨?_, rfl, ?_, ?_⟩
  · intro sys exceptions
    unfold isFlagged
    exact decide_eq_true_iff
  · intro exceptions h
    unfold isFlagged
    rw [h]
    decide
  · intro exceptions h
    unfold isFlagged
    rw [h]
    decide

/-- Witness for C5: two active exceptions do not flag, three do. -/
theorem isFlagged_threshold_witness :
    isFlagged rulesConfig.systemRules
      [("a", ⟨true, "r"⟩), ("b", ⟨true, "r"⟩), ("c", ⟨false, "r"⟩)] = false ∧
    isFlagged rulesConfig.systemRules
      [("a", ⟨true, "r"⟩), ("b", ⟨true, "r"⟩), ("c", ⟨true, "r"⟩)] = true :=
  ⟨isFlagged_threshold.2.2.1 _ rfl, isFlagged_threshold.2.2.2 _ rfl⟩

/-- Counterexample to **C6** as stated: `"abc"` coerces to `NaN`, the shipped
`graduationYear` field carries a `range` rule with both `min` and `max` set,
yet `validateField` returns a *valid* verdict — the `NaN` comparisons are all
false, so the range check passes instead of failing. -/
theorem nonNumeric_range_counterexample :
    jsStrToNum "abc" = .nan ∧
    graduationYearField.validations.any
      (fun r => r.type == .range && r.min.isSome && r.max.isSome) = true ∧
    validateField graduationYearField (.vstr "abc") [] [] demoToday =
      .ok ⟨true, none, true, none⟩ :=
  ⟨rfl, rfl, rfl⟩

/-- Claim **C6** (amended): numeric coercion of a non-numeric string yields `NaN`,
which compares as *never* less than and *never* greater than any bound, so
the `range`, `minValue`, and `conditional` numeric checks **pass** on such a
value (fail-open), the `conditional` case provided its conditions impose no
`requires` clause. -/
theorem nonNumeric_numeric_checks_pass (s : String) (h : jsStrToNum s = .nan) :
    (∀ (field : FieldConfig) (rule : ValidationRule) (allData : RecordV)
        (auditLog : List RecordV) (today : YMD), rule.type = .range →
      evalRule field rule (.vstr s) allData auditLog today = .ok none) ∧
    (∀ (field : FieldConfig) (rule : ValidationRule) (allData : RecordV)
        (auditLog : List RecordV) (today : YMD), rule.type = .minValue →
      evalRule field rule (.vstr s) allData auditLog today = .ok none) ∧
    (∀ (field : FieldConfig) (rule : ValidationRule) (allData : RecordV)
        (auditLog : List RecordV) (today : YMD) (conds : List Cond),
      rule.type = .conditional → rule.conditions = some conds →
      (∀ c ∈ conds, c.requires = none) →
      evalRule field rule (.vstr s) allData auditLog today = .ok none) := by
  have hnum : toNumber (.vstr s) = .nan := h
  refine ⟨?_, ?_, ?_⟩
  · intro field rule allData auditLog today ht
    simp [evalRule, ht, hnum, jgt, jlt_nan_left, jlt_nan_right]
  · intro field rule allData auditLog today ht
    simp [evalRule, ht, hnum, jlt_nan_left]
  · intro field rule allData auditLog today conds ht hconds hreq
    simp only [evalRule, ht, hconds]
    rw [evalConds_nan_pass rule (fieldIsSoft field) (.vstr s) allData conds hnum hreq]

/-- Witness for C6 (amended) at `s = "abc"` and the shipped `graduationYear`
range rule. -/
theorem nonNumeric_numeric_checks_pass_witness :
    evalRule graduationYearField
      { type := .range, min := some 2015, max := some 2025,
        message := some "Graduation year must be between 2015-2025" }
      (.vstr "abc") [] [] demoToday = .ok none :=
  (nonNumeric_numeric_checks_pass "abc" rfl).1 graduationYearField _ [] [] demoToday rfl

/-- Claim **C7.** When a field's rule list ends in a `unique` rule with
`checkStorage` and all earlier rules pass on a string value, the verdict is
invalid iff some prior history entry records a strictly-equal value for the
field's id.  Concretely: with history `[{formData: {email: "a@x.com"}}]` the
email field rejects `"a@x.com"` and accepts `"b@x.com"`. -/
theorem unique_rule_spec :
    (∀ (field : FieldConfig) (pre : List ValidationRule)
        (uniqueRule : ValidationRule) (s : String) (allData : RecordV)
        (auditLog : List RecordV) (today : YMD),
      field.validations = pre ++ [uniqueRule] →
      uniqueRule.type = .unique → uniqueRule.checkStorage = some true →
      (∀ r ∈ pre, evalRule field r (.vstr s) allData auditLog today = .ok none) →
      ∃ r, validateField field (.vstr s) allData auditLog today = .ok r ∧
        (r.valid = false ↔ ∃ entry ∈ auditLog, getV entry field.id = .vstr s)) ∧
    (validateField emailField (.vstr "a@x.com") []
        [[("email", .vstr "a@x.com")]] demoToday =
      .ok ⟨false, some "This email is already registered", false, none⟩) ∧
    (validateField emailField (.vstr "b@x.com") []
        [[("email", .vstr "a@x.com")]] demoToday =
      .ok ⟨true, none, false, none⟩) := by
  refine ⟨?_, rfl, rfl⟩
  intro field pre uniqueRule s allData auditLog today hval htype hcs hpass
  unfold validateField
  rw [hval, validateRules_append_pass _ _ _ _ _ _ _ hpass]
  by_cases hex : (auditLog.any fun entry => strictEq (getV entry field.id) (.vstr s)) = true
  · refine ⟨failRes (fieldIsSoft field) uniqueRule.message, ?_, ?_⟩
    · simp [validateRules, evalRule, htype, hcs, hex]
    · constructor
      · intro _
        rcases List.any_eq_true.mp hex with ⟨entry, hm, he⟩
        exact ⟨entry, hm, (strictEq_iff _ _).mp he⟩
      · intro _
        rfl
  · have hex' : (auditLog.any fun entry => strictEq (getV entry field.id) (.vstr s)) = false :=
      Bool.eq_false_iff.mpr hex
    refine ⟨⟨true, none, fieldIsSoft field, none⟩, ?_, ?_⟩
    · simp [validateRules, evalRule, htype, hcs, hex']
    · constructor
      · intro h
        simp at h
      · rintro ⟨entry, hm, he⟩
        have hc : (auditLog.any fun entry => strictEq (getV entry field.id) (.vstr s)) = true :=
          List.any_eq_true.mpr ⟨entry, hm, (strictEq_iff _ _).mpr he⟩
        rw [hex'] at hc
        cases hc

/-- Witness for C7 at the shipped email field: all earlier rules pass on
`"a@x.com"`, and with a matching history entry the verdict is invalid. -/
theorem unique_rule_spec_witness :
    ∃ r, validateField emailField (.vstr "a@x.com") []
        [[("email", .vstr "a@x.com")]] demoToday = .ok r ∧
      (r.valid = false ↔ ∃ entry ∈ [[(("email" : String), Value.vstr "a@x.com")]],
        getV entry emailField.id = .vstr "a@x.com") :=
  unique_rule_spec.1 emailField
    [{ type := .required, message := some "Email is required" },
     { type := .emailFormat,
       message := some "Enter a valid email address (e.g., name@company.com)" }]
    { type := .unique, message := some "This email is already registered",
      checkStorage := some true }
    "a@x.com" [] [[("email", .vstr "a@x.com")]] demoToday
    rfl rfl rfl
    (by intro r hr; fin_cases hr <;> rfl)

/-- Counterexample to **C8** as stated: the numeric value `5` reaches the
shipped email field's `emailFormat` rule (it passes `required`), matches no
`local@domain.tld` shape, yet the final verdict is *valid*: the rule body
only tests `typeof value === 'string'` values, so every non-string slips
through. -/
theorem emailFormat_nonstring_counterexample :
    validateField emailField (.vnum 5) [] [] demoToday =
      .ok ⟨true, none, false, none⟩ := rfl

/-- Claim **C8** (amended): an evaluated `emailFormat` rule leaves every non-string
value unchecked (it passes), and on a string value fails exactly when the
string does not match `/^[^\s@]+@[^\s@]+\.[^\s@]+$/` — e.g. a second `@`,
whitespace, a dotless domain, an empty local part, or a domain whose only
dot is its first or last character all fail, while `a@b.c` passes. -/
theorem emailFormat_string_spec :
    (∀ (field : FieldConfig) (rule : ValidationRule) (v : Value)
        (allData : RecordV) (auditLog : List RecordV) (today : YMD),
      rule.type = .emailFormat → (∀ s, v ≠ .vstr s) →
      evalRule field rule v allData auditLog today = .ok none) ∧
    (∀ (field : FieldConfig) (rule : ValidationRule) (s : String)
        (allData : RecordV) (auditLog : List RecordV) (today : YMD),
      rule.type = .emailFormat →
      evalRule field rule (.vstr s) allData auditLog today =
        (if emailTest s then .ok none
         else .ok (some (failRes (fieldIsSoft field) rule.message)))) ∧
    (emailTest "a@b.c" = true ∧ emailTest "a@b@c.d" = false ∧
      emailTest "a b@c.d" = false ∧ emailTest "a@b c.d" = false ∧
      emailTest "a@bc" = false ∧ emailTest "@b.c" = false ∧
      emailTest "a@.c" = false ∧ emailTest "a@b." = false ∧
      emailTest "a@b.c." = true) := by
  refine ⟨?_, ?_, by decide⟩
  · intro field rule v allData auditLog today ht hv
    cases v with
    | vstr s => exact absurd rfl (hv s)
    | undefined => simp [evalRule, ht]
    | vnull => simp [evalRule, ht]
    | vnum q => simp [evalRule, ht]
    | vbool b => simp [evalRule, ht]
  · intro field rule s allData auditLog today ht
    by_cases he : emailTest s <;> simp [evalRule, ht, he]

/-- Witness for C8 (amended): the dotless string `"a@x"` fails an evaluated
`emailFormat` rule. -/
theorem emailFormat_string_spec_witness :
    evalRule emailOnlyField { type := .emailFormat, message := some "bad email" }
      (.vstr "a@x") [] [] demoToday =
      .ok (some (failRes false (some "bad email"))) := by
  rw [emailFormat_string_spec.2.1 emailOnlyField _ "a@x" [] [] demoToday rfl]
  rfl

/-- Counterexample to **C9** as stated: a field configuration whose `pattern`
rule carries the malformed pattern `"["` (an unterminated character class)
makes `validateField` throw (`new RegExp("[")` raises a `SyntaxError`) on any
string value, rather than returning a `ValidationResult`. -/
theorem validateField_throw_counterexample :
    validateField badPatternField (.vstr "x") [] [] demoToday =
      .error "SyntaxError: Invalid regular expression" := rfl

/-- Claim **C9** (amended): `validateField` can throw only by compiling a malformed
`pattern`; for every field whose patterns compile — in particular every
shipped field — it totally returns a `ValidationResult` for every value,
record and history.  `checkRationale` is total, and resolves every invalid
rationale to `valid = false` with a message (while an invalid `validateField`
verdict carries the failing rule's *configured* message, which may be absent:
the shipped `notEquals` rule declares none). -/
theorem validateField_checkRationale_total :
    (∀ (field : FieldConfig) (value : Value) (allData : RecordV)
        (auditLog : List RecordV) (today : YMD),
      patternsCompile field = true →
      ∃ r, validateField field value allData auditLog today = .ok r) ∧
    (∀ f ∈ rulesConfig.fields, patternsCompile f = true) ∧
    (∀ (field : FieldConfig) (rationale : String),
      (checkRationale field rationale).valid = true ∨
        ((checkRationale field rationale).valid = false ∧
          (checkRationale field rationale).error ≠ none)) ∧
    validateField interviewStatusField (.vstr "Rejected") [] [] demoToday =
      .ok ⟨false, none, false, some true⟩ := by
  refine ⟨?_, shipped_patterns_compile, ?_, rfl⟩
  · intro field value allData auditLog today h
    exact validateField_ok_of_compiles field h value allData auditLog today
  · intro field rationale
    simp only [checkRationale]
    repeat' split
    all_goals simp

/-- Witness for C9 (amended): the shipped email field never throws. -/
theorem validateField_checkRationale_total_witness :
    ∃ r, validateField emailField (.vstr "x") [] [] demoToday = .ok r :=
  validateField_checkRationale_total.1 emailField (.vstr "x") [] [] demoToday
    (by decide)

/-- Claim **C10.** `missingRequired` counts only `undefined`, `null` and `""` as
missing — the boolean `false` is not counted — so a soft field whose
`required` rule fails on `false` (here `screeningScore`), backed by an
active exception with a gate-passing rationale, does not block submission:
with every other field satisfying the gate, `canSubmit` is `true` even
though that `required` rule reports a failure. -/
theorem requiredFalse_soft_exception_submits :
    getV demoData "screeningScore" = .vbool false ∧
    validateField screeningScoreField (.vbool false) demoData [] demoToday =
      .ok ⟨false, some "Screening score is required", true, none⟩ ∧
    missingRequiredB rulesConfig.fields demoData = false ∧
    canSubmit rulesConfig.fields demoData demoExc [] demoToday = .ok true :=
  ⟨rfl, rfl, rfl, by decide⟩

end AdmitGuard
